import Mathlib

/-!
Verification of the CDC enrichment transform
(src/functions/cdc-enrichment/cdc-enrichment-function.py).

The Python function `CDCEnrichmentFunction.process(input_bytes, context)` is
shallowly embedded here.  JSON values are modelled by the inductive `Json`
(numbers as `Int`; fractional literals are outside the model), Python
exceptions by `Except String` (the string is the exception's message,
`str(e)`; message texts are modelled loosely), the Pulsar context by a
structure of optional capabilities plus a total logging effect recorded in the
returned log list, and the `datetime` library by total conversion functions
supplied through the context.
-/

/-- A JSON value as produced by Python's `json.loads`.  Object member lists
keep insertion order, mirroring Python dict ordering. -/
inductive Json where
  | null
  | bool (b : Bool)
  | num (n : Int)
  | str (s : String)
  | arr (items : List Json)
  | obj (pairs : List (String × Json))

mutual
/-- Boolean structural equality on `Json` (backs the `DecidableEq` instance;
this is Lean-side equality of the model, not Python `==`, which is `pyEq`
below). -/
def jbeq : Json → Json → Bool
  | .null, .null => true
  | .bool a, .bool b => a == b
  | .num a, .num b => a == b
  | .str a, .str b => a == b
  | .arr xs, .arr ys => jbeqList xs ys
  | .obj a, .obj b => jbeqMembers a b
  | _, _ => false

def jbeqList : List Json → List Json → Bool
  | [], [] => true
  | x :: xs, y :: ys => jbeq x y && jbeqList xs ys
  | _, _ => false

def jbeqMembers : List (String × Json) → List (String × Json) → Bool
  | [], [] => true
  | (k, v) :: xs, (k2, v2) :: ys => k == k2 && jbeq v v2 && jbeqMembers xs ys
  | _, _ => false
end

theorem jbeq_iff : ∀ a b : Json, jbeq a b = true ↔ a = b := by
  intro a b
  refine jbeq.induct
    (fun a b => jbeq a b = true ↔ a = b)
    (fun a b => jbeqMembers a b = true ↔ a = b)
    (fun a b => jbeqList a b = true ↔ a = b)
    ?_ ?_ ?_ ?_ ?_ ?_ ?_ ?_ ?_ ?_ ?_ ?_ ?_ a b
  · simp [jbeq]
  · intro a b; simp [jbeq]
  · intro a b; simp [jbeq]
  · intro a b; simp [jbeq]
  · intro a b ih; simp [jbeq, ih]
  · intro a b ih; simp [jbeq, ih]
  · intro t x h1 h2 h3 h4 h5 h6
    cases t <;> cases x <;>
      first
        | (exfalso; solve
            | exact h1 rfl rfl
            | exact h2 _ _ rfl rfl
            | exact h3 _ _ rfl rfl
            | exact h4 _ _ rfl rfl
            | exact h5 _ _ rfl rfl
            | exact h6 _ _ rfl rfl)
        | simp [jbeq]
  · simp [jbeqList]
  · intro x xs y ys ih1 ih2; simp [jbeqList, ih1, ih2]
  · intro t x h1 h2
    cases t <;> cases x <;>
      first
        | (exfalso; solve
            | exact h1 rfl rfl
            | exact h2 _ _ _ _ rfl rfl)
        | simp [jbeqList]
  · simp [jbeqMembers]
  · intro k v xs k2 v2 ys ih1 ih2; simp [jbeqMembers, ih1, ih2]
  · intro t x h1 h2
    cases t <;> cases x <;>
      first
        | (exfalso; solve
            | exact h1 rfl rfl
            | exact h2 _ _ _ _ _ _ rfl rfl)
        | simp [jbeqMembers]

instance : DecidableEq Json := fun a b => decidable_of_iff _ (jbeq_iff a b)

mutual
/-- Nesting depth of a JSON value, used as recursion fuel for `pyEq`. -/
def jdepth : Json → Nat
  | .arr xs => jdepthList xs + 1
  | .obj kvs => jdepthMembers kvs + 1
  | _ => 0

def jdepthList : List Json → Nat
  | [] => 0
  | x :: xs => Nat.max (jdepth x) (jdepthList xs)

def jdepthMembers : List (String × Json) → Nat
  | [] => 0
  | (_, v) :: rest => Nat.max (jdepth v) (jdepthMembers rest)
end

/-- Look a key up in an object member list (Python dict indexing, keys unique). -/
def lookupKV : List (String × Json) → String → Option Json
  | [], _ => none
  | (k, v) :: rest, key => if k = key then some v else lookupKV rest key

/-- Python's `dict.get(key, default)`: the stored value when the key is
present (even when that value is `None`), the default otherwise. -/
def getKV (kvs : List (String × Json)) (key : String) (dflt : Json) : Json :=
  (lookupKV kvs key).getD dflt

/-- Insert for object construction during parsing: an existing key keeps its
position and takes the new value, as in Python dicts. -/
def insertKV : List (String × Json) → String → Json → List (String × Json)
  | [], key, v => [(key, v)]
  | (k, w) :: rest, key, v =>
    if k = key then (k, v) :: rest else (k, w) :: insertKV rest key v

/-- Python truthiness of a JSON value (`bool(v)`). -/
def pyTruthy : Json → Bool
  | Json.null => false
  | Json.bool b => b
  | Json.num n => n != 0
  | Json.str s => s.length != 0
  | Json.arr xs => !xs.isEmpty
  | Json.obj kvs => !kvs.isEmpty

/-- Python `==` on JSON values, with the `bool`/`int` coercion (`True == 1`)
and key-based dict equality; fuelled so that the recursion through member
lookups is total.  The fuel is an upper bound on nesting, see `pyEq`. -/
def pyEqF : Nat → Json → Json → Bool
  | 0, _, _ => false
  | _ + 1, Json.null, Json.null => true
  | _ + 1, Json.bool a, Json.bool b => a == b
  | _ + 1, Json.bool a, Json.num n => (if a then (1 : Int) else 0) == n
  | _ + 1, Json.num n, Json.bool b => n == (if b then (1 : Int) else 0)
  | _ + 1, Json.num a, Json.num b => a == b
  | _ + 1, Json.str a, Json.str b => a == b
  | f + 1, Json.arr xs, Json.arr ys =>
    xs.length == ys.length && (xs.zip ys).all fun p => pyEqF f p.1 p.2
  | f + 1, Json.obj a, Json.obj b =>
    a.length == b.length && a.all fun kv =>
      match lookupKV b kv.1 with
      | some w => pyEqF f kv.2 w
      | none => false
  | _ + 1, _, _ => false

/-- Python `==` on JSON values (`jdepth a + 1` strictly dominates the
recursion depth of the comparison, so the fuel never runs out). -/
def pyEq (a b : Json) : Bool := pyEqF (jdepth a + 1) a b

/-- Python `len(v)`: defined for strings, lists and dicts, a `TypeError`
otherwise. -/
def pyLen : Json → Except String Nat
  | Json.str s => .ok s.length
  | Json.arr xs => .ok xs.length
  | Json.obj kvs => .ok kvs.length
  | Json.null => .error "object of type NoneType has no len()"
  | Json.bool _ => .error "object of type bool has no len()"
  | Json.num _ => .error "object of type int has no len()"

/-- Substring containment on character lists (Python `needle in str`). -/
def listInfixOf (needle l : List Char) : Bool :=
  l.tails.any fun t => needle.isPrefixOf t

/-- Python's `needle in container` for a string needle: substring test on
strings, element equality on lists, key membership on dicts, and a
`TypeError` on non-containers. -/
def pyContains (needle : Json) (container : Json) : Except String Bool :=
  match container with
  | Json.str s =>
    match needle with
    | Json.str n => .ok (listInfixOf n.data s.data)
    | _ => .error "in <string> requires string as left operand"
  | Json.arr xs => .ok (xs.any fun x => pyEq needle x)
  | Json.obj kvs =>
    match needle with
    | Json.arr _ => .error "unhashable type: list"
    | Json.obj _ => .error "unhashable type: dict"
    | _ => .ok (kvs.any fun kv => pyEq needle (Json.str kv.1))
  | Json.null => .error "argument of type NoneType is not iterable"
  | Json.bool _ => .error "argument of type bool is not iterable"
  | Json.num _ => .error "argument of type int is not iterable"

/-- The name Python uses for a value's type, for attribute-error messages. -/
def pyTypeName : Json → String
  | Json.null => "NoneType"
  | Json.bool _ => "bool"
  | Json.num _ => "int"
  | Json.str _ => "str"
  | Json.arr _ => "list"
  | Json.obj _ => "dict"

/-- The method call `v.get(key, default)`: only dicts have `.get`; any other
receiver raises an `AttributeError`. -/
def pyDictGet (v : Json) (key : String) (dflt : Json) : Except String Json :=
  match v with
  | Json.obj kvs => .ok (getKV kvs key dflt)
  | other => .error (pyTypeName other ++ " object has no attribute get")

/-- Python `str.split(sep)` for a one-character separator, on character
lists: every occurrence splits, empty segments are kept, and the empty
string yields `[[]]`. -/
def pySplitChar (sep : Char) : List Char → List (List Char)
  | [] => [[]]
  | c :: cs =>
    let r := pySplitChar sep cs
    if c = sep then [] :: r
    else
      match r with
      | h :: t => (c :: h) :: t
      | [] => [[c]]

/-- The method call `v.split("@")`: only strings have `.split`. -/
def pySplitAt (v : Json) : Except String (List (List Char)) :=
  match v with
  | Json.str s => .ok (pySplitChar '@' s.data)
  | other => .error (pyTypeName other ++ " object has no attribute split")

mutual
/-- Python `str(v)` as used in f-string interpolation: strings verbatim,
other values by their `repr` (string quoting inside containers is
approximated: no escaping of quotes within the repr). -/
def pyStr : Json → String
  | Json.str s => s
  | v => pyRepr v

/-- Python `repr(v)`, approximately (see `pyStr`). -/
def pyRepr : Json → String
  | Json.null => "None"
  | Json.bool true => "True"
  | Json.bool false => "False"
  | Json.num n => toString n
  | Json.str s => "_" ++ s ++ "_"
  | Json.arr xs => "[" ++ pyReprList xs ++ "]"
  | Json.obj kvs => "[dict " ++ pyReprMembers kvs ++ "]"

def pyReprList : List Json → String
  | [] => ""
  | [x] => pyRepr x
  | x :: y :: t => pyRepr x ++ ", " ++ pyReprList (y :: t)

def pyReprMembers : List (String × Json) → String
  | [] => ""
  | [(k, v)] => k ++ ": " ++ pyRepr v
  | (k, v) :: m :: t => k ++ ": " ++ pyRepr v ++ ", " ++ pyReprMembers (m :: t)
end

/-! The Pulsar function context.

`process` receives a host-supplied `context` value.  The source guards each metadata
accessor with `hasattr` before calling it, so each capability is modelled as
an `Option` (absent attribute ↦ `none`); `get_message_id` is always wrapped
in `str(...)`, so its capability is modelled as the resulting string.  The
logger (`context.get_logger()`, used unguarded) is modelled as a total
effect: log calls are collected in the returned list.  The two `datetime`
conversions are modelled as total context-supplied functions. -/

structure Context where
  functionName : Option String
  functionVersion : Option String
  messageId : Option String
  topic : Option String
  partitionId : Option Json
  /-- Models `datetime.fromtimestamp(ts_ms / 1000.0).isoformat()` applied to
  the raw integer `ts_ms`. -/
  fromTimestampIso : Int → String
  /-- Models `datetime.utcnow().isoformat()` captured during this call. -/
  utcnowIso : String

/-- One call to the context's logger. -/
inductive LogCall where
  | info (line : String)
  | error (line : String)
deriving DecidableEq

/-- A Python value that is either `str` or `bytes`: the type of
`input_bytes` (line 19) and of the value `process` returns.  Bytes are
byte-value lists. -/
inductive PyData where
  | str (s : String)
  | bytes (b : List Nat)
deriving DecidableEq

deriving instance DecidableEq for Except

/-! The enrichment computation (lines 29-96).

Each group mirrors one block of `process`.  Failures are Python exceptions,
carried in `Except String`. -/

/-- Lines 35-46: the `operation` group.  `op_labels.get(op, "UNKNOWN")`
hashes `op`, so an unhashable `op` (list or dict) raises; `op in ["c", "u",
"d"]` is `==`-based list membership and never raises. -/
def operationGroup (fields : List (String × Json)) : Except String Json :=
  let op := getKV fields "op" (Json.str "unknown")
  match op with
  | Json.arr _ => .error "unhashable type: list"
  | Json.obj _ => .error "unhashable type: dict"
  | _ =>
    let label :=
      match op with
      | Json.str "c" => "CREATE"
      | Json.str "u" => "UPDATE"
      | Json.str "d" => "DELETE"
      | Json.str "r" => "READ"
      | _ => "UNKNOWN"
    .ok (Json.obj [("code", op), ("label", Json.str label),
      ("is_mutation", Json.bool
        (pyEq op (Json.str "c") || pyEq op (Json.str "u") || pyEq op (Json.str "d")))])

/-- The numeric value of `v` in `v / 1000.0` (line 53): ints and bools
divide; any other operand raises a `TypeError`. -/
def pyNumValue : Json → Except String Int
  | Json.num n => .ok n
  | Json.bool b => .ok (if b then 1 else 0)
  | other => .error ("unsupported operand type for division: " ++ pyTypeName other)

/-- Lines 49-55: the `timestamps` group, emitted only when `ts_ms` is
truthy.  Returns the member list to splice into `enrichment` (empty when
the group is omitted). -/
def timestampsGroup (ctx : Context) (fields : List (String × Json)) :
    Except String (List (String × Json)) :=
  let ts := getKV fields "ts_ms" Json.null
  if pyTruthy ts then do
    let n ← pyNumValue ts
    .ok [("timestamps", Json.obj [
      ("event_time_ms", ts),
      ("event_time_iso", Json.str (ctx.fromTimestampIso n)),
      ("processing_time_iso", Json.str ctx.utcnowIso)])]
  else .ok []

/-- Lines 58-67: the `source_metadata` group, emitted only when `source`
(defaulting to `{}`) is truthy.  Every field access is `source.get(...)`,
which raises on a non-dict receiver. -/
def sourceMetadataGroup (source : Json) : Except String (List (String × Json)) :=
  if pyTruthy source then do
    let db ← pyDictGet source "db" Json.null
    let schema ← pyDictGet source "schema" Json.null
    let table ← pyDictGet source "table" Json.null
    let connector ← pyDictGet source "connector" Json.null
    let version ← pyDictGet source "version" Json.null
    let snapshot ← pyDictGet source "snapshot" Json.null
    .ok [("source_metadata", Json.obj [
      ("database", db), ("schema", schema), ("table", table),
      ("connector", connector), ("version", version),
      ("is_snapshot", Json.bool (pyEq snapshot (Json.str "true")))])]
  else .ok []

/-- Lines 70-78: the `data_quality` group (always emitted).  `field_count`
is `len(after) if after else 0`; `is_complete` is `after is not None and
len(after) > 0`, evaluated in that order. -/
def dataQualityGroup (fields : List (String × Json)) : Except String Json := do
  let after := getKV fields "after" Json.null
  let before := getKV fields "before" Json.null
  let fieldCount ← if pyTruthy after then pyLen after else .ok 0
  let isComplete ←
    if after ≠ Json.null then do
      let n ← pyLen after
      pure (decide (n > 0))
    else pure false
  .ok (Json.obj [
    ("has_before", Json.bool (before != Json.null)),
    ("has_after", Json.bool (after != Json.null)),
    ("field_count", Json.num fieldCount),
    ("is_complete", Json.bool isComplete)])

/-- Line 84: `email.split("@")[1] if "@" in email else None`, the first
entry evaluated in the `customer_insights` dict literal. -/
def emailDomainStep (email : Json) : Except String Json := do
  let hasAt ← pyContains (Json.str "@") email
  if hasAt then do
    let parts ← pySplitAt email
    match parts.drop 1 with
    | d :: _ => pure (Json.str (String.mk d))
    | [] => Except.error "list index out of range"
  else pure Json.null

/-- Lines 81-87: the `customer_insights` group, guarded by
`after and "email" in after`.  The group's dict literal evaluates
`email_domain` (see `emailDomainStep`) first, then `has_email`, then
`email_length`. -/
def customerInsightsGroup (after : Json) : Except String (List (String × Json)) :=
  if pyTruthy after then do
    let hasEmailKey ← pyContains (Json.str "email") after
    if hasEmailKey then do
      let email ← pyDictGet after "email" (Json.str "")
      let emailDomain ← emailDomainStep email
      let emailLength ← pyLen email
      .ok [("customer_insights", Json.obj [
        ("email_domain", emailDomain),
        ("has_email", Json.bool (pyTruthy email)),
        ("email_length", Json.num emailLength)])]
    else .ok []
  else .ok []

/-- Lines 90-96: the `processing_metadata` group.  Each accessor is guarded
by `hasattr`, so a missing capability independently falls back; the group
never raises. -/
def processingMetadataGroup (ctx : Context) : Json :=
  Json.obj [
    ("function_name", Json.str (ctx.functionName.getD "cdc-enrichment")),
    ("function_version", Json.str (ctx.functionVersion.getD "1.0")),
    ("message_id", match ctx.messageId with
      | some s => Json.str s
      | none => Json.null),
    ("topic", match ctx.topic with
      | some s => Json.str s
      | none => Json.null),
    ("partition_id", match ctx.partitionId with
      | some v => v
      | none => Json.null)]

/-- The `enrichment` member list in insertion order (lines 42, 51, 60, 73,
83, 90): the optional groups are spliced between the always-present ones. -/
def groupsList (opG dqG pmG : Json)
    (tsO srcO ciO : List (String × Json)) : List (String × Json) :=
  [("operation", opG)] ++ tsO ++ srcO ++ [("data_quality", dqG)] ++ ciO ++
    [("processing_metadata", pmG)]

/-- Lines 29-100 applied to the parsed message: builds the enriched value
and the info-log line (an f-string interpolating the table name from
`source.get` and the op code; the `source.get` call raises when `source` is not a
dict, even after a successful assembly).  A non-dict message raises at the
first `message.get` (line 35). -/
def processMessage (msg : Json) (ctx : Context) : Except String (Json × String) :=
  match msg with
  | Json.obj fields => do
    let opG ← operationGroup fields
    let tsO ← timestampsGroup ctx fields
    let source := getKV fields "source" (Json.obj [])
    let srcO ← sourceMetadataGroup source
    let dqG ← dataQualityGroup fields
    let ciO ← customerInsightsGroup (getKV fields "after" Json.null)
    let enriched := Json.obj [
      ("original", msg),
      ("enrichment", Json.obj (groupsList opG dqG (processingMetadataGroup ctx) tsO srcO ciO))]
    let table ← pyDictGet source "table" (Json.str "unknown")
    .ok (enriched,
      "Enriched message from " ++ pyStr table ++ " - op: " ++
        pyStr (getKV fields "op" (Json.str "unknown")))
  | other => .error (pyTypeName other ++ " object has no attribute get")

/-! Decoding: `json.loads` and UTF-8 (lines 23-26).

A recursive-descent JSON reader over character lists.  Recursion is on a
fuel bound (one unit per consumed character suffices).  Numbers are
integers only: fractional and exponent literals, `Infinity` and `NaN` are
outside the model and rejected. -/

/-- JSON whitespace. -/
def jsonWs (c : Char) : Bool :=
  c.toNat = 32 || c.toNat = 9 || c.toNat = 10 || c.toNat = 13

def dropWs (l : List Char) : List Char := l.dropWhile jsonWs

def isDigitCh (c : Char) : Bool := 48 ≤ c.toNat && c.toNat ≤ 57

/-- The value of one hexadecimal digit, in any letter case. -/
def hexDigitVal (c : Char) : Option Nat :=
  let n := c.toNat
  if 48 ≤ n && n ≤ 57 then some (n - 48)
  else if 97 ≤ n && n ≤ 102 then some (n - 87)
  else if 65 ≤ n && n ≤ 70 then some (n - 55)
  else none

/-- Four hex digits as one code unit value. -/
def hexQuad (a b c d : Char) : Option Nat :=
  match hexDigitVal a, hexDigitVal b, hexDigitVal c, hexDigitVal d with
  | some x, some y, some z, some w => some (x * 4096 + y * 256 + z * 16 + w)
  | _, _, _, _ => none

/-- The character a single-letter JSON escape stands for. -/
def jsonEscape (e : Char) : Option Char :=
  if e = '"' || e = '\\' || e = '/' then some e
  else if e = 'n' then some '\n'
  else if e = 't' then some '\t'
  else if e = 'r' then some '\r'
  else if e = 'b' then some (Char.ofNat 8)
  else if e = 'f' then some (Char.ofNat 12)
  else none

/-- Read a string body after the opening quote.  Escapes are decoded;
`\uXXXX` surrogate pairs are combined (unpaired surrogates are outside the
model and rejected); unescaped control characters are rejected as in
Python's strict mode. -/
def readStr (acc : List Char) : Nat → List Char → Except String (String × List Char)
  | 0, _ => .error "string nesting fuel exhausted"
  | _ + 1, [] => .error "unterminated string"
  | fuel + 1, c :: rest =>
    if c = '"' then .ok (String.mk acc.reverse, rest)
    else if c = '\\' then
      match rest with
      | 'u' :: a :: b :: cch :: d :: rest2 =>
        match hexQuad a b cch d with
        | none => .error "invalid unicode escape"
        | some n =>
          if 0xD800 ≤ n && n < 0xDC00 then
            match rest2 with
            | '\\' :: 'u' :: a2 :: b2 :: c2 :: d2 :: rest3 =>
              match hexQuad a2 b2 c2 d2 with
              | some m =>
                if 0xDC00 ≤ m && m < 0xE000 then
                  readStr (Char.ofNat (0x10000 + (n - 0xD800) * 0x400 + (m - 0xDC00)) :: acc)
                    fuel rest3
                else .error "unpaired surrogate escape"
              | none => .error "invalid unicode escape"
            | _ => .error "unpaired surrogate escape"
          else if 0xDC00 ≤ n && n < 0xE000 then .error "unpaired surrogate escape"
          else readStr (Char.ofNat n :: acc) fuel rest2
      | e :: rest2 =>
        match jsonEscape e with
        | some ch => readStr (ch :: acc) fuel rest2
        | none => .error "invalid escape"
      | [] => .error "unterminated string"
    else if c.toNat < 0x20 then .error "invalid control character in string"
    else readStr (c :: acc) fuel rest

/-- Read an integer literal (sign and digit run; Python rejects a leading
zero followed by more digits, and this model rejects fractional or exponent
continuations). -/
def readInt (l : List Char) : Except String (Int × List Char) :=
  let (neg, l1) := match l with
    | '-' :: r => (true, r)
    | _ => (false, l)
  let digits := l1.takeWhile isDigitCh
  let rest := l1.dropWhile isDigitCh
  if digits.isEmpty then .error "expecting value"
  else if digits.length > 1 && digits.headD '0' = '0' then .error "invalid number"
  else
    match rest with
    | '.' :: _ => .error "fractional numbers are outside the model"
    | 'e' :: _ => .error "exponent numbers are outside the model"
    | 'E' :: _ => .error "exponent numbers are outside the model"
    | _ =>
      let mag : Nat := digits.foldl (fun acc c => 10 * acc + (c.toNat - 48)) 0
      .ok (if neg then -(mag : Int) else (mag : Int), rest)

mutual
/-- Read one JSON value (input assumed already stripped of leading
whitespace at the call sites that require it). -/
def readVal : Nat → List Char → Except String (Json × List Char)
  | 0, _ => .error "value nesting fuel exhausted"
  | fuel + 1, l =>
    match dropWs l with
    | [] => .error "expecting value"
    | '{' :: r =>
      (match dropWs r with
       | '}' :: r2 => .ok (Json.obj [], r2)
       | r2 => readMembers fuel [] r2)
    | '[' :: r =>
      (match dropWs r with
       | ']' :: r2 => .ok (Json.arr [], r2)
       | r2 => readElems fuel [] r2)
    | '"' :: r => do
      let (s, r2) ← readStr [] (fuel + 1) r
      .ok (Json.str s, r2)
    | 't' :: 'r' :: 'u' :: 'e' :: r => .ok (Json.bool true, r)
    | 'f' :: 'a' :: 'l' :: 's' :: 'e' :: r => .ok (Json.bool false, r)
    | 'n' :: 'u' :: 'l' :: 'l' :: r => .ok (Json.null, r)
    | l2 => do
      let (n, r) ← readInt l2
      .ok (Json.num n, r)

/-- Read object members after `{` (first member expected; duplicate keys
take the later value, as in Python). -/
def readMembers (fuel : Nat) (acc : List (String × Json)) (l : List Char) :
    Except String (Json × List Char) :=
  match fuel with
  | 0 => .error "member nesting fuel exhausted"
  | fuel + 1 =>
    match l with
    | '"' :: r => do
      let (k, r2) ← readStr [] (fuel + 1) r
      match dropWs r2 with
      | ':' :: r3 => do
        let (v, r4) ← readVal fuel r3
        let acc2 := insertKV acc k v
        match dropWs r4 with
        | ',' :: r5 => readMembers fuel acc2 (dropWs r5)
        | '}' :: r5 => .ok (Json.obj acc2, r5)
        | _ => .error "expecting comma delimiter"
      | _ => .error "expecting colon delimiter"
    | _ => .error "expecting property name"

/-- Read array elements after `[` (first element expected). -/
def readElems (fuel : Nat) (acc : List Json) (l : List Char) :
    Except String (Json × List Char) :=
  match fuel with
  | 0 => .error "element nesting fuel exhausted"
  | fuel + 1 => do
    let (v, r) ← readVal fuel l
    match dropWs r with
    | ',' :: r2 => readElems fuel (acc ++ [v]) r2
    | ']' :: r2 => .ok (Json.arr (acc ++ [v]), r2)
    | _ => .error "expecting comma delimiter"
end

/-- Python `json.loads` on a text value: one JSON document, with only trailing
whitespace allowed after it. -/
def jsonLoads (s : String) : Except String Json := do
  let (v, rest) ← readVal (s.data.length + 1) s.data
  match dropWs rest with
  | [] => .ok v
  | _ => .error "extra data"

/-- UTF-8 decoding of a byte list into characters (overlong encodings,
surrogates, out-of-range code points and truncated sequences all raise, as
in `bytes.decode("utf-8")`). -/
def utf8Chars : List Nat → Except String (List Char)
  | [] => .ok []
  | b :: rest =>
    if b < 0x80 then do
      let tl ← utf8Chars rest
      .ok (Char.ofNat b :: tl)
    else if b < 0xC2 then .error "invalid start byte"
    else if b < 0xE0 then
      match rest with
      | b2 :: rest2 =>
        if 0x80 ≤ b2 && b2 < 0xC0 then do
          let tl ← utf8Chars rest2
          .ok (Char.ofNat ((b - 0xC0) * 0x40 + (b2 - 0x80)) :: tl)
        else .error "invalid continuation byte"
      | [] => .error "unexpected end of data"
    else if b < 0xF0 then
      match rest with
      | b2 :: b3 :: rest2 =>
        if 0x80 ≤ b2 && b2 < 0xC0 && 0x80 ≤ b3 && b3 < 0xC0 then
          let n := (b - 0xE0) * 0x1000 + (b2 - 0x80) * 0x40 + (b3 - 0x80)
          if n < 0x800 then .error "overlong encoding"
          else if 0xD800 ≤ n && n < 0xE000 then .error "surrogate code point"
          else do
            let tl ← utf8Chars rest2
            .ok (Char.ofNat n :: tl)
        else .error "invalid continuation byte"
      | _ => .error "unexpected end of data"
    else if b < 0xF5 then
      match rest with
      | b2 :: b3 :: b4 :: rest2 =>
        if 0x80 ≤ b2 && b2 < 0xC0 && 0x80 ≤ b3 && b3 < 0xC0 && 0x80 ≤ b4 && b4 < 0xC0 then
          let n := (b - 0xF0) * 0x40000 + (b2 - 0x80) * 0x1000 + (b3 - 0x80) * 0x40 + (b4 - 0x80)
          if n < 0x10000 then .error "overlong encoding"
          else if n > 0x10FFFF then .error "code point out of range"
          else do
            let tl ← utf8Chars rest2
            .ok (Char.ofNat n :: tl)
        else .error "invalid continuation byte"
      | _ => .error "unexpected end of data"
    else .error "invalid start byte"

/-- Python `bytes.decode("utf-8")`. -/
def utf8DecodeStr (b : List Nat) : Except String String := do
  let cs ← utf8Chars b
  .ok (String.mk cs)

/-- UTF-8 encoding of one character. -/
def utf8EncodeChar (c : Char) : List Nat :=
  let n := c.toNat
  if n < 0x80 then [n]
  else if n < 0x800 then [0xC0 + n / 0x40, 0x80 + n % 0x40]
  else if n < 0x10000 then [0xE0 + n / 0x1000, 0x80 + (n / 0x40) % 0x40, 0x80 + n % 0x40]
  else [0xF0 + n / 0x40000, 0x80 + (n / 0x1000) % 0x40, 0x80 + (n / 0x40) % 0x40, 0x80 + n % 0x40]

/-- Python `str.encode("utf-8")`. -/
def utf8Encode (s : String) : List Nat := (s.data.map utf8EncodeChar).flatten

/-! Encoding: `json.dumps(enriched, indent=2)` (line 99).

Default `ensure_ascii=True` formatting: strings escape the quote, the
backslash, the short control escapes, and everything else outside
`0x20-0x7e` as `\uXXXX` (with surrogate pairs above the BMP); containers
put each item on its own line, indented two spaces per level. -/

def hexDigitChar (n : Nat) : Char :=
  if n < 10 then Char.ofNat ('0'.toNat + n) else Char.ofNat ('a'.toNat + n - 10)

def hex4 (n : Nat) : String :=
  String.mk [hexDigitChar (n / 0x1000 % 16), hexDigitChar (n / 0x100 % 16),
    hexDigitChar (n / 0x10 % 16), hexDigitChar (n % 16)]

def escapeChar (c : Char) : String :=
  if c = '"' then "\\\""
  else if c = '\\' then "\\\\"
  else if c = '\n' then "\\n"
  else if c = '\t' then "\\t"
  else if c = '\r' then "\\r"
  else if c.toNat = 8 then "\\b"
  else if c.toNat = 12 then "\\f"
  else if c.toNat < 0x20 || c.toNat > 0x7e then
    if c.toNat < 0x10000 then "\\u" ++ hex4 c.toNat
    else
      let m := c.toNat - 0x10000
      "\\u" ++ hex4 (0xD800 + m / 0x400) ++ "\\u" ++ hex4 (0xDC00 + m % 0x400)
  else String.singleton c

def quoteJsonStr (s : String) : String :=
  "\"" ++ String.join (s.data.map escapeChar) ++ "\""

def indentSpaces (i : Nat) : String := String.mk (List.replicate i ' ')

mutual
/-- Serialize one value; `i` is the current indentation width. -/
def dumpsVal (i : Nat) : Json → String
  | Json.null => "null"
  | Json.bool true => "true"
  | Json.bool false => "false"
  | Json.num n => toString n
  | Json.str s => quoteJsonStr s
  | Json.arr [] => "[]"
  | Json.arr (x :: xs) =>
    "[\n" ++ dumpsElems (i + 2) (x :: xs) ++ "\n" ++ indentSpaces i ++ "]"
  | Json.obj [] => String.mk [Char.ofNat 0x7b, Char.ofNat 0x7d]
  | Json.obj (m :: ms) =>
    String.singleton (Char.ofNat 0x7b) ++ "\n" ++ dumpsMembers (i + 2) (m :: ms) ++ "\n" ++
      indentSpaces i ++ String.singleton (Char.ofNat 0x7d)

def dumpsElems (i : Nat) : List Json → String
  | [] => ""
  | [x] => indentSpaces i ++ dumpsVal i x
  | x :: y :: t => indentSpaces i ++ dumpsVal i x ++ ",\n" ++ dumpsElems i (y :: t)

def dumpsMembers (i : Nat) : List (String × Json) → String
  | [] => ""
  | [(k, v)] => indentSpaces i ++ quoteJsonStr k ++ ": " ++ dumpsVal i v
  | (k, v) :: m :: t =>
    indentSpaces i ++ quoteJsonStr k ++ ": " ++ dumpsVal i v ++ ",\n" ++
      dumpsMembers i (m :: t)
end

/-- Python `json.dumps(v, indent=2)`. -/
def jsonDumps (v : Json) : String := dumpsVal 0 v

/-! The top-level entry point (lines 19-107). -/

/-- Lines 23-26: text parses directly; bytes decode as UTF-8 first. -/
def decodeInput : PyData → Except String Json
  | PyData.str s => jsonLoads s
  | PyData.bytes b => do
    let s ← utf8DecodeStr b
    jsonLoads s

/-- The body of the `try` block: decode, enrich, serialize (`json.dumps`
precedes the info-log line, whose construction can itself raise; the final
`output.encode("utf-8")` is total).  Returns the output bytes and the
info-log line. -/
def processBody (input : PyData) (ctx : Context) : Except String (List Nat × String) := do
  let msg ← decodeInput input
  let (enriched, infoLine) ← processMessage msg ctx
  .ok (utf8Encode (jsonDumps enriched), infoLine)

/-- The entry point `CDCEnrichmentFunction.process`: on success, one
info-log call and the encoded output; on any exception, one error-log call
carrying the message prefixed by the fixed error text, and the original
input returned unchanged (lines 104-107). -/
def process (input : PyData) (ctx : Context) : PyData × List LogCall :=
  match processBody input ctx with
  | .ok (out, infoLine) => (PyData.bytes out, [LogCall.info infoLine])
  | .error e => (input, [LogCall.error ("Error processing message: " ++ e)])

theorem ebind_ok {α β : Type} (a : α) (f : α → Except String β) :
    (Except.ok a >>= f) = f a := rfl

theorem ebind_err {α β : Type} (e : String) (f : α → Except String β) :
    ((Except.error e : Except String α) >>= f) = Except.error e := rfl

theorem processMessage_ok_shape {fields : List (String × Json)} {ctx : Context}
    {enr : Json} {il : String}
    (h : processMessage (Json.obj fields) ctx = .ok (enr, il)) :
    ∃ opG tsO srcO dqG ciO tbl,
      operationGroup fields = .ok opG ∧
      timestampsGroup ctx fields = .ok tsO ∧
      sourceMetadataGroup (getKV fields "source" (Json.obj [])) = .ok srcO ∧
      dataQualityGroup fields = .ok dqG ∧
      customerInsightsGroup (getKV fields "after" Json.null) = .ok ciO ∧
      pyDictGet (getKV fields "source" (Json.obj [])) "table" (Json.str "unknown") = .ok tbl ∧
      enr = Json.obj [("original", Json.obj fields),
        ("enrichment", Json.obj (groupsList opG dqG (processingMetadataGroup ctx) tsO srcO ciO))] ∧
      il = "Enriched message from " ++ pyStr tbl ++ " - op: " ++
        pyStr (getKV fields "op" (Json.str "unknown")) := by
  rw [processMessage.eq_def] at h
  simp only [] at h
  cases h1 : operationGroup fields with
  | error e => rw [h1, ebind_err] at h; exact absurd h (by simp)
  | ok opG =>
  rw [h1, ebind_ok] at h
  cases h2 : timestampsGroup ctx fields with
  | error e => rw [h2, ebind_err] at h; exact absurd h (by simp)
  | ok tsO =>
  rw [h2, ebind_ok] at h
  cases h3 : sourceMetadataGroup (getKV fields "source" (Json.obj [])) with
  | error e => rw [h3, ebind_err] at h; exact absurd h (by simp)
  | ok srcO =>
  rw [h3, ebind_ok] at h
  cases h4 : dataQualityGroup fields with
  | error e => rw [h4, ebind_err] at h; exact absurd h (by simp)
  | ok dqG =>
  rw [h4, ebind_ok] at h
  cases h5 : customerInsightsGroup (getKV fields "after" Json.null) with
  | error e => rw [h5, ebind_err] at h; exact absurd h (by simp)
  | ok ciO =>
  rw [h5, ebind_ok] at h
  cases h6 : pyDictGet (getKV fields "source" (Json.obj [])) "table" (Json.str "unknown") with
  | error e => rw [h6, ebind_err] at h; exact absurd h (by simp)
  | ok tbl =>
  rw [h6, ebind_ok] at h
  simp only [Except.ok.injEq, Prod.mk.injEq] at h
  exact ⟨opG, tsO, srcO, dqG, ciO, tbl, rfl, rfl, rfl, rfl, rfl, rfl, h.1.symm, h.2.symm⟩

/-- Read one member of a JSON object (`none` on non-objects and missing keys). -/
def jsonGet (v : Json) (key : String) : Option Json :=
  match v with
  | Json.obj kvs => lookupKV kvs key
  | _ => none

theorem pyEq_str_iff (v : Json) (t : String) : pyEq v (Json.str t) = true ↔ v = Json.str t := by
  cases v <;> simp [pyEq, pyEqF, jdepth]

theorem pyEq_str_decide (v : Json) (t : String) :
    pyEq v (Json.str t) = decide (v = Json.str t) := by
  rcases Decidable.em (v = Json.str t) with h | h
  · subst h
    simp [(pyEq_str_iff (Json.str t) t).mpr rfl]
  · have h1 : pyEq v (Json.str t) = false := by
      cases hb : pyEq v (Json.str t)
      · rfl
      · exact absurd ((pyEq_str_iff _ _).mp hb) h
    simp [h1, h]

theorem operationGroup_ok {fields : List (String × Json)} {opG : Json}
    (h : operationGroup fields = .ok opG) :
    opG = Json.obj [
      ("code", getKV fields "op" (Json.str "unknown")),
      ("label", Json.str (
        match getKV fields "op" (Json.str "unknown") with
        | Json.str "c" => "CREATE"
        | Json.str "u" => "UPDATE"
        | Json.str "d" => "DELETE"
        | Json.str "r" => "READ"
        | _ => "UNKNOWN")),
      ("is_mutation", Json.bool (decide (getKV fields "op" (Json.str "unknown") = Json.str "c"
        ∨ getKV fields "op" (Json.str "unknown") = Json.str "u"
        ∨ getKV fields "op" (Json.str "unknown") = Json.str "d")))] := by
  unfold operationGroup at h
  cases hop : getKV fields "op" (Json.str "unknown") with
  | arr xs => rw [hop] at h; exact absurd h (by simp)
  | obj kvs => rw [hop] at h; exact absurd h (by simp)
  | null =>
    rw [hop] at h
    simp only [Except.ok.injEq] at h
    simp [← h, pyEq_str_decide]
  | bool b =>
    rw [hop] at h
    simp only [Except.ok.injEq] at h
    simp [← h, pyEq_str_decide]
  | num n =>
    rw [hop] at h
    simp only [Except.ok.injEq] at h
    simp [← h, pyEq_str_decide]
  | str s =>
    rw [hop] at h
    simp only [Except.ok.injEq] at h
    subst h
    simp only [pyEq_str_decide, Bool.decide_or, Json.str.injEq, Bool.or_assoc]

theorem timestampsGroup_ok {ctx : Context} {fields : List (String × Json)}
    {tsO : List (String × Json)} (h : timestampsGroup ctx fields = .ok tsO) :
    (pyTruthy (getKV fields "ts_ms" Json.null) = false ∧ tsO = []) ∨
    (pyTruthy (getKV fields "ts_ms" Json.null) = true ∧ ∃ n,
      pyNumValue (getKV fields "ts_ms" Json.null) = .ok n ∧
      tsO = [("timestamps", Json.obj [
        ("event_time_ms", getKV fields "ts_ms" Json.null),
        ("event_time_iso", Json.str (ctx.fromTimestampIso n)),
        ("processing_time_iso", Json.str ctx.utcnowIso)])]) := by
  unfold timestampsGroup at h
  simp only [] at h
  cases ht : pyTruthy (getKV fields "ts_ms" Json.null) with
  | false =>
    rw [ht] at h
    simp only [if_neg Bool.false_ne_true, Except.ok.injEq] at h
    exact Or.inl ⟨rfl, h.symm⟩
  | true =>
    rw [ht, if_pos rfl] at h
    cases hn : pyNumValue (getKV fields "ts_ms" Json.null) with
    | error e => rw [hn, ebind_err] at h; exact absurd h (by simp)
    | ok n =>
      rw [hn, ebind_ok] at h
      simp only [Except.ok.injEq] at h
      exact Or.inr ⟨rfl, n, rfl, h.symm⟩

theorem sourceMetadataGroup_ok {source : Json} {srcO : List (String × Json)}
    (h : sourceMetadataGroup source = .ok srcO) :
    (pyTruthy source = false ∧ srcO = []) ∨
    (∃ kvs, source = Json.obj kvs ∧ pyTruthy source = true ∧
      srcO = [("source_metadata", Json.obj [
        ("database", getKV kvs "db" Json.null),
        ("schema", getKV kvs "schema" Json.null),
        ("table", getKV kvs "table" Json.null),
        ("connector", getKV kvs "connector" Json.null),
        ("version", getKV kvs "version" Json.null),
        ("is_snapshot", Json.bool (pyEq (getKV kvs "snapshot" Json.null) (Json.str "true")))])]) := by
  unfold sourceMetadataGroup at h
  cases ht : pyTruthy source with
  | false =>
    rw [ht] at h
    simp only [if_neg Bool.false_ne_true, Except.ok.injEq] at h
    exact Or.inl ⟨rfl, h.symm⟩
  | true =>
    rw [ht, if_pos rfl] at h
    cases source with
    | obj kvs =>
      simp only [pyDictGet, ebind_ok, Except.ok.injEq] at h
      exact Or.inr ⟨kvs, rfl, rfl, h.symm⟩
    | null => simp [pyDictGet, ebind_err] at h
    | bool b => simp [pyDictGet, ebind_err] at h
    | num n => simp [pyDictGet, ebind_err] at h
    | str s => simp [pyDictGet, ebind_err] at h
    | arr xs => simp [pyDictGet, ebind_err] at h

theorem customerInsightsGroup_ok {after : Json} {ciO : List (String × Json)}
    (h : customerInsightsGroup after = .ok ciO) :
    ciO = [] ∨ ∃ g, ciO = [("customer_insights", g)] := by
  unfold customerInsightsGroup at h
  by_cases ht : pyTruthy after = true
  · rw [if_pos ht] at h
    cases hk : pyContains (Json.str "email") after with
    | error e => rw [hk, ebind_err] at h; exact absurd h (by simp)
    | ok b =>
      rw [hk, ebind_ok] at h
      cases b with
      | false =>
        rw [if_neg (by simp)] at h
        simp only [Except.ok.injEq] at h
        exact Or.inl h.symm
      | true =>
        rw [if_pos rfl] at h
        cases he : pyDictGet after "email" (Json.str "") with
        | error e => rw [he, ebind_err] at h; exact absurd h (by simp)
        | ok email =>
          rw [he, ebind_ok] at h
          cases hd : emailDomainStep email with
          | error e => rw [hd, ebind_err] at h; exact absurd h (by simp)
          | ok dom =>
            rw [hd, ebind_ok] at h
            cases hl : pyLen email with
            | error e => rw [hl, ebind_err] at h; exact absurd h (by simp)
            | ok n =>
              rw [hl, ebind_ok] at h
              simp only [Except.ok.injEq] at h
              exact Or.inr ⟨_, h.symm⟩
  · rw [if_neg ht] at h
    simp only [Except.ok.injEq] at h
    exact Or.inl h.symm

theorem enrichment_lookup {fields : List (String × Json)} {ctx : Context}
    {enr : Json} {il : String}
    (h : processMessage (Json.obj fields) ctx = .ok (enr, il)) :
    ∃ g : Json,
      enr = Json.obj [("original", Json.obj fields), ("enrichment", g)] ∧
      jsonGet enr "original" = some (Json.obj fields) ∧
      jsonGet enr "enrichment" = some g ∧
      (∃ opG, operationGroup fields = .ok opG ∧ jsonGet g "operation" = some opG) ∧
      (∃ dqG, dataQualityGroup fields = .ok dqG ∧ jsonGet g "data_quality" = some dqG) ∧
      jsonGet g "processing_metadata" = some (processingMetadataGroup ctx) ∧
      (∃ tsO, timestampsGroup ctx fields = .ok tsO ∧
        jsonGet g "timestamps" = lookupKV tsO "timestamps") ∧
      (∃ srcO, sourceMetadataGroup (getKV fields "source" (Json.obj [])) = .ok srcO ∧
        jsonGet g "source_metadata" = lookupKV srcO "source_metadata") ∧
      (∃ ciO, customerInsightsGroup (getKV fields "after" Json.null) = .ok ciO ∧
        jsonGet g "customer_insights" = lookupKV ciO "customer_insights") := by
  obtain ⟨opG, tsO, srcO, dqG, ciO, tbl, h1, h2, h3, h4, h5, h6, henr, hil⟩ :=
    processMessage_ok_shape h
  subst henr
  refine ⟨Json.obj (groupsList opG dqG (processingMetadataGroup ctx) tsO srcO ciO),
    rfl, by simp [jsonGet, lookupKV], by simp [jsonGet, lookupKV],
    ⟨opG, h1, ?_⟩, ⟨dqG, h4, ?_⟩, ?_, ⟨tsO, h2, ?_⟩, ⟨srcO, h3, ?_⟩, ⟨ciO, h5, ?_⟩⟩ <;>
  · rcases timestampsGroup_ok h2 with ⟨-, rfl⟩ | ⟨-, n, -, rfl⟩ <;>
    rcases sourceMetadataGroup_ok h3 with ⟨-, rfl⟩ | ⟨kvs, -, -, rfl⟩ <;>
    rcases customerInsightsGroup_ok h5 with rfl | ⟨g, rfl⟩ <;>
    simp [jsonGet, groupsList, lookupKV]

/-- The number of keys of a JSON object (0 for any non-object). -/
def jsonKeyCount : Json → Nat
  | Json.obj kvs => kvs.length
  | _ => 0

theorem dataQualityGroup_eval_null {fields : List (String × Json)}
    (h : getKV fields "after" Json.null = Json.null) :
    dataQualityGroup fields = .ok (Json.obj [
      ("has_before", Json.bool (getKV fields "before" Json.null != Json.null)),
      ("has_after", Json.bool false),
      ("field_count", Json.num 0),
      ("is_complete", Json.bool false)]) := by
  unfold dataQualityGroup
  rw [h]
  simp [pyTruthy, ebind_ok]

theorem dataQualityGroup_eval_obj {fields : List (String × Json)}
    {kvs : List (String × Json)}
    (h : getKV fields "after" Json.null = Json.obj kvs) :
    dataQualityGroup fields = .ok (Json.obj [
      ("has_before", Json.bool (getKV fields "before" Json.null != Json.null)),
      ("has_after", Json.bool true),
      ("field_count", Json.num kvs.length),
      ("is_complete", Json.bool (decide (kvs.length > 0)))]) := by
  unfold dataQualityGroup
  rw [h]
  cases kvs with
  | nil => simp [pyTruthy, pyLen, ebind_ok]
  | cons kv rest => simp [pyTruthy, pyLen, ebind_ok]

theorem lookupKV_some_mem {kvs : List (String × Json)} {k : String} {v : Json}
    (h : lookupKV kvs k = some v) : (k, v) ∈ kvs := by
  induction kvs with
  | nil => simp [lookupKV] at h
  | cons kv rest ih =>
    obtain ⟨k1, v1⟩ := kv
    unfold lookupKV at h
    by_cases he : k1 = k
    · subst he
      rw [if_pos rfl] at h
      simp only [Option.some.injEq] at h
      subst h
      exact List.mem_cons_self _ _
    · rw [if_neg he] at h
      exact List.mem_cons_of_mem _ (ih h)

theorem lookupKV_some_ne_nil {kvs : List (String × Json)} {k : String} {v : Json}
    (h : lookupKV kvs k = some v) : kvs ≠ [] := by
  intro hn
  subst hn
  simp [lookupKV] at h

theorem pyContains_key {kvs : List (String × Json)} {k : String} {v : Json}
    (h : lookupKV kvs k = some v) :
    pyContains (Json.str k) (Json.obj kvs) = .ok true := by
  have e : pyContains (Json.str k) (Json.obj kvs) =
      .ok (kvs.any fun kv => pyEq (Json.str k) (Json.str kv.1)) := rfl
  rw [e]
  congr 1
  rw [List.any_eq_true]
  exact ⟨(k, v), lookupKV_some_mem h, (pyEq_str_iff _ _).mpr rfl⟩

theorem getKV_of_lookup {kvs : List (String × Json)} {k : String} {v d : Json}
    (h : lookupKV kvs k = some v) : getKV kvs k d = v := by
  unfold getKV
  rw [h]
  rfl

/-- The amended `email_domain` semantics: with at least one `@`, the run of
characters strictly between the first `@` and the next `@` (or the end of
the string) — Python's `email.split("@")[1]`; with no `@`, `None`. -/
def emailDomainModel (s : String) : Json :=
  if s.data.contains '@' then
    Json.str (String.mk (((s.data.dropWhile (· != '@')).drop 1).takeWhile (· != '@')))
  else Json.null

theorem pySplitChar_head (sep : Char) (l : List Char) :
    ∃ t, pySplitChar sep l = l.takeWhile (· != sep) :: t := by
  induction l with
  | nil => exact ⟨[], rfl⟩
  | cons c cs ih =>
    obtain ⟨t, ht⟩ := ih
    by_cases hc : c = sep
    · subst hc
      refine ⟨pySplitChar c cs, ?_⟩
      simp [pySplitChar, List.takeWhile]
    · refine ⟨t, ?_⟩
      simp only [pySplitChar, ht, if_neg hc, List.takeWhile]
      rw [show (c != sep) = true from by simp [hc]]

theorem pySplitChar_append {sep : Char} {l1 : List Char} (l2 : List Char)
    (h : sep ∉ l1) :
    pySplitChar sep (l1 ++ sep :: l2) = l1 :: pySplitChar sep l2 := by
  induction l1 with
  | nil => simp [pySplitChar]
  | cons c cs ih =>
    have hc : ¬ c = sep := fun hh => h (hh ▸ List.mem_cons_self c cs)
    have hcs : sep ∉ cs := fun hh => h (List.mem_cons_of_mem c hh)
    rw [List.cons_append]
    simp only [pySplitChar, ih hcs, if_neg hc]

theorem dropWhile_append_at {l1 : List Char} (l2 : List Char)
    (h : '@' ∉ l1) :
    (l1 ++ '@' :: l2).dropWhile (· != '@') = '@' :: l2 := by
  induction l1 with
  | nil => simp [List.dropWhile]
  | cons c cs ih =>
    have hc : ¬ c = '@' := fun hh => h (hh ▸ List.mem_cons_self c cs)
    have hcs : '@' ∉ cs := fun hh => h (List.mem_cons_of_mem c hh)
    rw [List.cons_append, List.dropWhile_cons]
    simp only [bne_iff_ne, ne_eq, hc, not_false_eq_true, if_pos]
    exact ih hcs

theorem exists_first_at {l : List Char} (h : '@' ∈ l) :
    ∃ l1 l2, l = l1 ++ '@' :: l2 ∧ '@' ∉ l1 := by
  induction l with
  | nil => simp at h
  | cons c cs ih =>
    by_cases hc : c = '@'
    · subst hc
      exact ⟨[], cs, rfl, by simp⟩
    · have hcs : '@' ∈ cs := by
        rcases List.mem_cons.mp h with h1 | h1
        · exact absurd h1.symm hc
        · exact h1
      obtain ⟨l1, l2, he, hn⟩ := ih hcs
      refine ⟨c :: l1, l2, by rw [he, List.cons_append], ?_⟩
      intro hh
      rcases List.mem_cons.mp hh with h1 | h1
      · exact hc h1.symm
      · exact hn h1

theorem listInfixOf_singleton (a : Char) (l : List Char) :
    listInfixOf [a] l = l.contains a := by
  induction l with
  | nil => rfl
  | cons c cs ih =>
    unfold listInfixOf at ih ⊢
    simp only [List.tails, List.any_cons, ih, List.contains_cons]
    have e : [a].isPrefixOf (c :: cs) = (a == c) := by
      simp [List.isPrefixOf]
    rw [e]

theorem emailDomainStep_str (s : String) :
    emailDomainStep (Json.str s) = .ok (emailDomainModel s) := by
  unfold emailDomainStep emailDomainModel
  have e : pyContains (Json.str "@") (Json.str s) =
      .ok (listInfixOf "@".data s.data) := rfl
  rw [e, ebind_ok]
  have e2 : listInfixOf "@".data s.data = s.data.contains '@' := listInfixOf_singleton '@' s.data
  rw [e2]
  cases hc : s.data.contains '@' with
  | false => rfl
  | true =>
    rw [if_pos rfl]
    have hmem : '@' ∈ s.data := by
      rcases List.contains_iff_exists_mem_beq.mp hc with ⟨x, hx, hbeq⟩
      rw [show x = '@' from (by simpa using hbeq : ('@' : Char) = x).symm] at hx
      exact hx
    obtain ⟨l1, l2, hsplit, hnot⟩ := exists_first_at hmem
    have e3 : pySplitAt (Json.str s) = .ok (pySplitChar '@' s.data) := rfl
    rw [e3, ebind_ok, hsplit, pySplitChar_append l2 hnot]
    obtain ⟨t, ht⟩ := pySplitChar_head '@' l2
    rw [List.drop_one, List.tail_cons, ht]
    rw [dropWhile_append_at l2 hnot, List.drop_one, List.tail_cons]
    rfl

theorem customerInsightsGroup_email {akvs : List (String × Json)} {v : Json}
    (h : lookupKV akvs "email" = some v) :
    customerInsightsGroup (Json.obj akvs) = (do
      let emailDomain ← emailDomainStep v
      let emailLength ← pyLen v
      Except.ok [("customer_insights", Json.obj [
        ("email_domain", emailDomain),
        ("has_email", Json.bool (pyTruthy v)),
        ("email_length", Json.num emailLength)])]) := by
  unfold customerInsightsGroup
  have htr : pyTruthy (Json.obj akvs) = true := by
    cases akvs with
    | nil => simp [lookupKV] at h
    | cons kv rest => simp [pyTruthy]
  rw [if_pos htr, pyContains_key h, ebind_ok, if_pos rfl]
  have e : pyDictGet (Json.obj akvs) "email" (Json.str "") = .ok v := by
    have e0 : pyDictGet (Json.obj akvs) "email" (Json.str "") =
        .ok (getKV akvs "email" (Json.str "")) := rfl
    rw [e0, getKV_of_lookup h]
  rw [e, ebind_ok]

theorem customerInsightsGroup_email_str {akvs : List (String × Json)} {s : String}
    (h : lookupKV akvs "email" = some (Json.str s)) :
    customerInsightsGroup (Json.obj akvs) = .ok [("customer_insights", Json.obj [
      ("email_domain", emailDomainModel s),
      ("has_email", Json.bool (pyTruthy (Json.str s))),
      ("email_length", Json.num s.length)])] := by
  rw [customerInsightsGroup_email h, emailDomainStep_str, ebind_ok]
  rfl

theorem isPrefixOf_self (l : List Char) : l.isPrefixOf l = true := by
  induction l with
  | nil => rfl
  | cons c cs ih => simp [List.isPrefixOf, ih]

theorem listInfixOf_suffix (a b : List Char) : listInfixOf b (a ++ b) = true := by
  induction a with
  | nil =>
    unfold listInfixOf
    cases b with
    | nil => rfl
    | cons c cs =>
      rw [List.nil_append, List.tails_cons, List.any_cons, isPrefixOf_self]
      rfl
  | cons x xs ih =>
    unfold listInfixOf at ih ⊢
    rw [List.cons_append, List.tails_cons, List.any_cons, ih, Bool.or_true]

/-- The enriched value produced for a parsed message, when processing
succeeds. -/
def enrichedOf (msg : Json) (ctx : Context) : Option Json :=
  (processMessage msg ctx).toOption.map Prod.fst

/-- Follow a key path through nested JSON objects. -/
def jsonGetPath : Json → List String → Option Json
  | v, [] => some v
  | v, k :: ks =>
    match jsonGet v k with
    | some w => jsonGetPath w ks
    | none => none

theorem processBody_err_of_msg {input : PyData} {ctx : Context} {msg : Json} {e : String}
    (hdec : decodeInput input = .ok msg)
    (hpm : processMessage msg ctx = .error e) :
    processBody input ctx = .error e := by
  unfold processBody
  rw [hdec, ebind_ok, hpm, ebind_err]

theorem process_of_err {input : PyData} {ctx : Context} {e : String}
    (h : processBody input ctx = .error e) :
    process input ctx = (input, [LogCall.error ("Error processing message: " ++ e)]) := by
  unfold process
  rw [h]

/-- C1: whenever the try-block body (decode, enrichment computation, encode,
info-line construction) raises, `process` catches the exception, makes
exactly one error-log call (whose line contains the exception's message) and
zero info-log calls, and returns the original input value unchanged. -/
theorem claim_C1_fail_open (input : PyData) (ctx : Context) (e : String)
    (h : processBody input ctx = .error e) :
    process input ctx = (input, [LogCall.error ("Error processing message: " ++ e)]) ∧
    listInfixOf e.data ("Error processing message: " ++ e).data = true := by
  refine ⟨process_of_err h, ?_⟩
  rw [show ("Error processing message: " ++ e).data =
    "Error processing message: ".data ++ e.data from String.data_append ..]
  exact listInfixOf_suffix _ _

/-- C2: on a successful run, the returned value is the UTF-8 encoding of the
indented JSON dump of the enriched value; that value is an object with
exactly the two keys `original` and `enrichment`, and its `original` member
is the parsed input itself; one info-log call is made. -/
theorem claim_C2_output_shape (input : PyData) (ctx : Context) (msg enr : Json) (il : String)
    (h1 : decodeInput input = .ok msg)
    (h2 : processMessage msg ctx = .ok (enr, il)) :
    process input ctx = (PyData.bytes (utf8Encode (jsonDumps enr)), [LogCall.info il]) ∧
    ∃ g, enr = Json.obj [("original", msg), ("enrichment", g)] := by
  constructor
  · unfold process processBody
    rw [h1, ebind_ok, h2, ebind_ok]
  · cases msg with
    | obj fields =>
      obtain ⟨g, hg, -⟩ := enrichment_lookup h2
      exact ⟨g, hg⟩
    | null => exact absurd h2 (by simp [processMessage])
    | bool b => exact absurd h2 (by simp [processMessage])
    | num n => exact absurd h2 (by simp [processMessage])
    | str s => exact absurd h2 (by simp [processMessage])
    | arr xs => exact absurd h2 (by simp [processMessage])

/-- C4 (amended): when processing succeeds, the three unconditional groups
`operation`, `data_quality` and `processing_metadata` are always present in
the enrichment, whichever optional groups were omitted for missing
preconditions.  (The original claim's stronger per-group failure containment
is refuted separately: an exception in one group aborts the whole
computation.) -/
theorem claim_C4_amended (fields : List (String × Json)) (ctx : Context)
    (enr : Json) (il : String)
    (h : processMessage (Json.obj fields) ctx = .ok (enr, il)) :
    ∃ g, jsonGet enr "enrichment" = some g ∧
      (jsonGet g "operation").isSome = true ∧
      (jsonGet g "data_quality").isSome = true ∧
      (jsonGet g "processing_metadata").isSome = true := by
  obtain ⟨g, -, -, hg, ⟨opG, -, hop⟩, ⟨dqG, -, hdq⟩, hpm, -, -, -⟩ := enrichment_lookup h
  exact ⟨g, hg, by rw [hop]; rfl, by rw [hdq]; rfl, by rw [hpm]; rfl⟩

/-- C6: on success, the `operation` group is always emitted with `code` the
envelope's `op` value (`"unknown"` when absent), `label` from the fixed
c/u/d/r table (`"UNKNOWN"` otherwise), and `is_mutation` exactly when the
code is one of the strings `"c"`, `"u"`, `"d"`. -/
theorem claim_C6_operation (fields : List (String × Json)) (ctx : Context)
    (enr : Json) (il : String)
    (h : processMessage (Json.obj fields) ctx = .ok (enr, il)) :
    ∃ g, jsonGet enr "enrichment" = some g ∧
      jsonGet g "operation" = some (Json.obj [
        ("code", getKV fields "op" (Json.str "unknown")),
        ("label", Json.str (
          match getKV fields "op" (Json.str "unknown") with
          | Json.str "c" => "CREATE"
          | Json.str "u" => "UPDATE"
          | Json.str "d" => "DELETE"
          | Json.str "r" => "READ"
          | _ => "UNKNOWN")),
        ("is_mutation", Json.bool (decide
          (getKV fields "op" (Json.str "unknown") = Json.str "c" ∨
           getKV fields "op" (Json.str "unknown") = Json.str "u" ∨
           getKV fields "op" (Json.str "unknown") = Json.str "d")))]) := by
  obtain ⟨g, -, -, hg, ⟨opG, hopG, hop⟩, -, -, -, -, -⟩ := enrichment_lookup h
  exact ⟨g, hg, by rw [hop, operationGroup_ok hopG]⟩

/-- C7: on success, with `after` absent, null, or an object (mappings are
the only values for which "number of keys" is meaningful), the
`data_quality` group is always emitted with `has_before`/`has_after` true
exactly when the corresponding member is present and non-null,
`field_count` the number of keys of `after` (0 when absent/null/empty), and
`is_complete` true exactly when `after` is a non-empty object. -/
theorem claim_C7_data_quality (fields : List (String × Json)) (ctx : Context)
    (enr : Json) (il : String)
    (h : processMessage (Json.obj fields) ctx = .ok (enr, il))
    (hafter : getKV fields "after" Json.null = Json.null ∨
      ∃ kvs, getKV fields "after" Json.null = Json.obj kvs) :
    ∃ g, jsonGet enr "enrichment" = some g ∧
      jsonGet g "data_quality" = some (Json.obj [
        ("has_before", Json.bool (getKV fields "before" Json.null != Json.null)),
        ("has_after", Json.bool (getKV fields "after" Json.null != Json.null)),
        ("field_count", Json.num (jsonKeyCount (getKV fields "after" Json.null))),
        ("is_complete", Json.bool ((getKV fields "after" Json.null != Json.null) &&
          decide (jsonKeyCount (getKV fields "after" Json.null) > 0)))]) := by
  obtain ⟨g, -, -, hg, -, ⟨dqG, hdqG, hdq⟩, -, -, -, -⟩ := enrichment_lookup h
  refine ⟨g, hg, ?_⟩
  rw [hdq]
  rcases hafter with hnull | ⟨kvs, hobj⟩
  · rw [dataQualityGroup_eval_null hnull] at hdqG
    simp only [Except.ok.injEq] at hdqG
    rw [← hdqG, hnull]
    rfl
  · rw [dataQualityGroup_eval_obj hobj] at hdqG
    simp only [Except.ok.injEq] at hdqG
    rw [← hdqG, hobj]
    rfl

/-- C8: on success, the `timestamps` group is present exactly when `ts_ms`
is truthy (absent, null, zero, false and empty values all omit it), and
when present its `event_time_ms` is the raw `ts_ms` value. -/
theorem claim_C8_timestamps (fields : List (String × Json)) (ctx : Context)
    (enr : Json) (il : String)
    (h : processMessage (Json.obj fields) ctx = .ok (enr, il)) :
    ∃ g, jsonGet enr "enrichment" = some g ∧
      (pyTruthy (getKV fields "ts_ms" Json.null) = false →
        jsonGet g "timestamps" = none) ∧
      (pyTruthy (getKV fields "ts_ms" Json.null) = true →
        ∃ tg, jsonGet g "timestamps" = some tg ∧
          jsonGet tg "event_time_ms" = some (getKV fields "ts_ms" Json.null)) := by
  obtain ⟨g, -, -, hg, -, -, -, ⟨tsO, htsO, hts⟩, -, -⟩ := enrichment_lookup h
  refine ⟨g, hg, ?_, ?_⟩ <;>
    rcases timestampsGroup_ok htsO with ⟨hf, rfl⟩ | ⟨ht, n, -, rfl⟩ <;>
    intro hx
  · rw [hts]; rfl
  · rw [ht] at hx; exact absurd hx (by simp)
  · rw [hf] at hx; exact absurd hx (by simp)
  · refine ⟨_, by rw [hts]; rfl, ?_⟩
    simp [jsonGet, lookupKV]

/-- C9: on success, the `processing_metadata` group reflects each context
capability independently: a missing capability yields its fallback
(`"cdc-enrichment"`, `"1.0"`, or null) without raising and without
affecting the other capabilities. -/
theorem claim_C9_processing_metadata (fields : List (String × Json)) (ctx : Context)
    (enr : Json) (il : String)
    (h : processMessage (Json.obj fields) ctx = .ok (enr, il)) :
    ∃ g, jsonGet enr "enrichment" = some g ∧
      jsonGet g "processing_metadata" = some (Json.obj [
        ("function_name", Json.str (ctx.functionName.getD "cdc-enrichment")),
        ("function_version", Json.str (ctx.functionVersion.getD "1.0")),
        ("message_id", match ctx.messageId with
          | some s => Json.str s
          | none => Json.null),
        ("topic", match ctx.topic with
          | some s => Json.str s
          | none => Json.null),
        ("partition_id", match ctx.partitionId with
          | some v => v
          | none => Json.null)]) := by
  obtain ⟨g, -, -, hg, -, -, hpm, -, -, -⟩ := enrichment_lookup h
  exact ⟨g, hg, by rw [hpm]; rfl⟩

/-- C5: on success with a non-empty `source` mapping, `is_snapshot` is true
exactly when `source.snapshot` is the exact string `"true"` (boolean true,
`"True"`, `1`, or anything else yields false). -/
theorem claim_C5_is_snapshot (fields : List (String × Json)) (ctx : Context)
    (enr : Json) (il : String) (kvs : List (String × Json))
    (h : processMessage (Json.obj fields) ctx = .ok (enr, il))
    (hsrc : getKV fields "source" (Json.obj []) = Json.obj kvs)
    (hne : kvs ≠ []) :
    ∃ g sg, jsonGet enr "enrichment" = some g ∧
      jsonGet g "source_metadata" = some sg ∧
      jsonGet sg "is_snapshot" =
        some (Json.bool (decide (getKV kvs "snapshot" Json.null = Json.str "true"))) := by
  obtain ⟨g, -, -, hg, -, -, -, -, ⟨srcO, hsrcO, hsm⟩, -⟩ := enrichment_lookup h
  rcases sourceMetadataGroup_ok hsrcO with ⟨hf, rfl⟩ | ⟨kvs2, hobj, -, rfl⟩
  · rw [hsrc] at hf
    cases kvs with
    | nil => exact absurd rfl hne
    | cons kv rest => simp [pyTruthy] at hf
  · rw [hsrc] at hobj
    injection hobj with hkvs
    subst hkvs
    refine ⟨g, _, hg, by rw [hsm]; rfl, ?_⟩
    simp [jsonGet, lookupKV, pyEq_str_decide]

/-- A probe context with every optional capability absent and fixed clock
strings. -/
def ctxEmpty : Context :=
  ⟨none, none, none, none, none, fun _ => "1970-01-01T00:00:00", "2026-01-01T00:00:00"⟩

/-- C3 (amended): on success, when `after.email` is a string, the emitted
`customer_insights.email_domain` is `emailDomainModel`: null when the string
has no `@`; otherwise the characters strictly between the first `@` and the
next `@` (or the end) — Python's `split("@")[1]` — not the whole remainder
after the first `@`. -/
theorem claim_C3_amended (fields : List (String × Json)) (ctx : Context)
    (enr : Json) (il : String) (akvs : List (String × Json)) (s : String)
    (h : processMessage (Json.obj fields) ctx = .ok (enr, il))
    (hafter : getKV fields "after" Json.null = Json.obj akvs)
    (hemail : lookupKV akvs "email" = some (Json.str s)) :
    (∃ g cg, jsonGet enr "enrichment" = some g ∧
      jsonGet g "customer_insights" = some cg ∧
      jsonGet cg "email_domain" = some (emailDomainModel s)) ∧
    (∀ l1 l2, s.data = l1 ++ '@' :: l2 → '@' ∉ l1 →
      emailDomainModel s = Json.str (String.mk (l2.takeWhile (· != '@')))) ∧
    (¬ s.data.contains '@' = true → emailDomainModel s = Json.null) := by
  refine ⟨?_, ?_, ?_⟩
  · obtain ⟨g, -, -, hg, -, -, -, -, -, ⟨ciO, hciO, hci⟩⟩ := enrichment_lookup h
    rw [hafter, customerInsightsGroup_email_str hemail] at hciO
    simp only [Except.ok.injEq] at hciO
    refine ⟨g, _, hg, by rw [hci, ← hciO]; rfl, ?_⟩
    simp [lookupKV, jsonGet]
  · intro l1 l2 hs hnot
    unfold emailDomainModel
    rw [hs]
    rw [if_pos (List.contains_iff_exists_mem_beq.mpr
      ⟨'@', List.mem_append_right l1 (List.mem_cons_self _ _), by simp⟩)]
    rw [dropWhile_append_at l2 hnot, List.drop_one, List.tail_cons]
  · intro hnc
    unfold emailDomainModel
    rw [if_neg hnc]

/-- The C3 counterexample message: `after.email` is `"a@b@c"`. -/
def msgMultiAt : Json := Json.obj [("after", Json.obj [("email", Json.str "a@b@c")])]

/-- C3 (counterexample): for the email `"a@b@c"`, the code emits
`email_domain = "b"` — the `split("@")[1]` segment — not the claimed
substring after the first `@`, `"b@c"`. -/
theorem claim_C3_counterexample :
    (enrichedOf msgMultiAt ctxEmpty).bind
        (fun e => jsonGetPath e ["enrichment", "customer_insights", "email_domain"]) =
      some (Json.str "b") ∧
    Json.str "b" ≠ Json.str "b@c" := by
  constructor
  · decide
  · decide

/-- C10 (amended): an `after.email` value that is null, boolean, or numeric
makes `"@" in email` raise a `TypeError`, so the whole call takes the
fail-open path: one error-log call and the original input returned
unchanged.  (Container-typed non-strings are excluded: a list or dict email
need not raise — see the counterexample.) -/
theorem claim_C10_amended (input : PyData) (ctx : Context)
    (fields akvs : List (String × Json)) (v : Json)
    (hdec : decodeInput input = .ok (Json.obj fields))
    (hafter : getKV fields "after" Json.null = Json.obj akvs)
    (hemail : lookupKV akvs "email" = some v)
    (hv : v = Json.null ∨ (∃ b, v = Json.bool b) ∨ (∃ n, v = Json.num n)) :
    ∃ e, processBody input ctx = .error e ∧
      process input ctx = (input, [LogCall.error ("Error processing message: " ++ e)]) := by
  have hci : ∃ e, customerInsightsGroup (Json.obj akvs) = .error e := by
    rw [customerInsightsGroup_email hemail]
    rcases hv with rfl | ⟨b, rfl⟩ | ⟨n, rfl⟩
    · exact ⟨_, rfl⟩
    · exact ⟨_, rfl⟩
    · exact ⟨_, rfl⟩
  obtain ⟨eci, hci⟩ := hci
  have hpm : ∃ e, processMessage (Json.obj fields) ctx = .error e := by
    cases hp : processMessage (Json.obj fields) ctx with
    | error e => exact ⟨e, rfl⟩
    | ok p =>
      obtain ⟨enr, il⟩ := p
      obtain ⟨opG, tsO, srcO, dqG, ciO, tbl, -, -, -, -, h5, -, -, -⟩ :=
        processMessage_ok_shape hp
      rw [hafter, hci] at h5
      exact absurd h5 (by simp)
  obtain ⟨e, hpm⟩ := hpm
  exact ⟨e, processBody_err_of_msg hdec hpm, process_of_err (processBody_err_of_msg hdec hpm)⟩

/-- The C10 counterexample input: `after.email` is the empty list. -/
def inputListEmail : PyData :=
  PyData.str "\x7b\"after\": \x7b\"email\": []\x7d\x7d"

/-- C10 (counterexample): with `after.email = []` (a non-string), the call
does **not** fail open: it succeeds, makes one info-log call and no error
call, returns a value different from the input, and the output carries a
`customer_insights` group. -/
theorem claim_C10_counterexample :
    (process inputListEmail ctxEmpty).2 =
      [LogCall.info "Enriched message from unknown - op: unknown"] ∧
    (process inputListEmail ctxEmpty).1 ≠ inputListEmail ∧
    ((decodeInput inputListEmail).toOption.bind
      (fun msg => (enrichedOf msg ctxEmpty).bind
        (fun e => jsonGetPath e ["enrichment", "customer_insights"]))).isSome = true := by
  refine ⟨by decide, by decide, by decide⟩

/-- C4 (counterexample): an envelope whose `source` is the string `"x"`
(not a mapping) does not merely lose the `source_metadata` group — the
whole call fails open: the original input comes back and no enrichment
output (operation, data-quality, processing-metadata included) exists. -/
theorem claim_C4_counterexample :
    process (PyData.str "\x7b\"source\": \"x\"\x7d") ctxEmpty =
      (PyData.str "\x7b\"source\": \"x\"\x7d",
        [LogCall.error "Error processing message: str object has no attribute get"]) := by
  decide

/-- The enriched value the transform produces for the empty envelope under
`ctxEmpty`. -/
def enrEmptyEnvelope : Json :=
  Json.obj [
    ("original", Json.obj []),
    ("enrichment", Json.obj [
      ("operation", Json.obj [
        ("code", Json.str "unknown"),
        ("label", Json.str "UNKNOWN"),
        ("is_mutation", Json.bool false)]),
      ("data_quality", Json.obj [
        ("has_before", Json.bool false),
        ("has_after", Json.bool false),
        ("field_count", Json.num 0),
        ("is_complete", Json.bool false)]),
      ("processing_metadata", Json.obj [
        ("function_name", Json.str "cdc-enrichment"),
        ("function_version", Json.str "1.0"),
        ("message_id", Json.null),
        ("topic", Json.null),
        ("partition_id", Json.null)])])]

theorem claim_C1_witness :
    process (PyData.str "\x7b") ctxEmpty =
      (PyData.str "\x7b",
        [LogCall.error ("Error processing message: " ++ "expecting property name")]) ∧
    listInfixOf "expecting property name".data
      ("Error processing message: " ++ "expecting property name").data = true :=
  claim_C1_fail_open (PyData.str "\x7b") ctxEmpty "expecting property name" (by decide)

theorem claim_C2_witness :
    process (PyData.str "\x7b\x7d") ctxEmpty =
      (PyData.bytes (utf8Encode (jsonDumps enrEmptyEnvelope)),
        [LogCall.info "Enriched message from unknown - op: unknown"]) ∧
    ∃ g, enrEmptyEnvelope = Json.obj [("original", Json.obj []), ("enrichment", g)] :=
  claim_C2_output_shape (PyData.str "\x7b\x7d") ctxEmpty (Json.obj []) enrEmptyEnvelope
    "Enriched message from unknown - op: unknown" (by decide) (by decide)

theorem claim_C4_witness :
    ∃ g, jsonGet enrEmptyEnvelope "enrichment" = some g ∧
      (jsonGet g "operation").isSome = true ∧
      (jsonGet g "data_quality").isSome = true ∧
      (jsonGet g "processing_metadata").isSome = true :=
  claim_C4_amended [] ctxEmpty enrEmptyEnvelope
    "Enriched message from unknown - op: unknown" (by decide)

theorem claim_C3_amended_witness :
    (enrichedOf (Json.obj [("after", Json.obj [("email", Json.str "x@y.com")])]) ctxEmpty).bind
        (fun e => jsonGetPath e ["enrichment", "customer_insights", "email_domain"]) =
      some (emailDomainModel "x@y.com") ∧
    emailDomainModel "x@y.com" = Json.str "y.com" := by
  constructor
  · cases hp : processMessage (Json.obj [("after", Json.obj [("email", Json.str "x@y.com")])]) ctxEmpty with
    | error e =>
      have hok : (processMessage (Json.obj [("after", Json.obj [("email", Json.str "x@y.com")])])
          ctxEmpty).toOption.isSome = true := by decide
      rw [hp] at hok
      exact absurd hok (by simp [Except.toOption])
    | ok p =>
      obtain ⟨enr, il⟩ := p
      obtain ⟨⟨g, cg, hg, hcg, hdom⟩, -, -⟩ :=
        claim_C3_amended _ ctxEmpty enr il [("email", Json.str "x@y.com")] "x@y.com" hp
          (by decide) (by decide)
      simp [enrichedOf, hp, Except.toOption, jsonGetPath, hg, hcg, hdom]
  · decide

theorem claim_C5_witness :
    (enrichedOf (Json.obj [("source", Json.obj [("snapshot", Json.str "true")])]) ctxEmpty).bind
        (fun e => jsonGetPath e ["enrichment", "source_metadata", "is_snapshot"]) =
      some (Json.bool true) := by
  cases hp : processMessage (Json.obj [("source", Json.obj [("snapshot", Json.str "true")])]) ctxEmpty with
  | error e =>
    have hok : (processMessage (Json.obj [("source", Json.obj [("snapshot", Json.str "true")])])
        ctxEmpty).toOption.isSome = true := by decide
    rw [hp] at hok
    exact absurd hok (by simp [Except.toOption])
  | ok p =>
    obtain ⟨enr, il⟩ := p
    obtain ⟨g, sg, hg, hsg, hsnap⟩ :=
      claim_C5_is_snapshot _ ctxEmpty enr il [("snapshot", Json.str "true")] hp
        (by decide) (by decide)
    have hs : (decide (getKV [("snapshot", Json.str "true")] "snapshot" Json.null =
        Json.str "true")) = true := by decide
    rw [hs] at hsnap
    simp [enrichedOf, hp, Except.toOption, jsonGetPath, hg, hsg, hsnap]

theorem claim_C6_witness :
    (enrichedOf (Json.obj [("op", Json.str "u")]) ctxEmpty).bind
        (fun e => jsonGetPath e ["enrichment", "operation"]) =
      some (Json.obj [
        ("code", Json.str "u"),
        ("label", Json.str "UPDATE"),
        ("is_mutation", Json.bool true)]) := by
  cases hp : processMessage (Json.obj [("op", Json.str "u")]) ctxEmpty with
  | error e =>
    have hok : (processMessage (Json.obj [("op", Json.str "u")])
        ctxEmpty).toOption.isSome = true := by decide
    rw [hp] at hok
    exact absurd hok (by simp [Except.toOption])
  | ok p =>
    obtain ⟨enr, il⟩ := p
    obtain ⟨g, hg, hop⟩ := claim_C6_operation _ ctxEmpty enr il hp
    simp [enrichedOf, hp, Except.toOption, jsonGetPath, hg, hop, getKV, lookupKV]

theorem claim_C7_witness :
    (enrichedOf (Json.obj [("before", Json.null), ("after", Json.obj [("a", Json.num 1)])])
        ctxEmpty).bind (fun e => jsonGetPath e ["enrichment", "data_quality"]) =
      some (Json.obj [
        ("has_before", Json.bool false),
        ("has_after", Json.bool true),
        ("field_count", Json.num 1),
        ("is_complete", Json.bool true)]) := by
  cases hp : processMessage (Json.obj [("before", Json.null), ("after", Json.obj [("a", Json.num 1)])])
      ctxEmpty with
  | error e =>
    have hok : (processMessage (Json.obj [("before", Json.null), ("after", Json.obj [("a", Json.num 1)])])
        ctxEmpty).toOption.isSome = true := by decide
    rw [hp] at hok
    exact absurd hok (by simp [Except.toOption])
  | ok p =>
    obtain ⟨enr, il⟩ := p
    obtain ⟨g, hg, hdq⟩ := claim_C7_data_quality _ ctxEmpty enr il hp
      (Or.inr ⟨[("a", Json.num 1)], by decide⟩)
    simp [enrichedOf, hp, Except.toOption, jsonGetPath, hg, hdq, getKV, lookupKV, jsonKeyCount]

theorem claim_C8_witness :
    (enrichedOf (Json.obj [("ts_ms", Json.num 1700000000000)]) ctxEmpty).bind
        (fun e => jsonGetPath e ["enrichment", "timestamps", "event_time_ms"]) =
      some (Json.num 1700000000000) := by
  cases hp : processMessage (Json.obj [("ts_ms", Json.num 1700000000000)]) ctxEmpty with
  | error e =>
    have hok : (processMessage (Json.obj [("ts_ms", Json.num 1700000000000)])
        ctxEmpty).toOption.isSome = true := by decide
    rw [hp] at hok
    exact absurd hok (by simp [Except.toOption])
  | ok p =>
    obtain ⟨enr, il⟩ := p
    obtain ⟨g, hg, -, htr⟩ := claim_C8_timestamps _ ctxEmpty enr il hp
    obtain ⟨tg, htg, hms⟩ := htr (by decide)
    have hval : getKV [("ts_ms", Json.num 1700000000000)] "ts_ms" Json.null =
        Json.num 1700000000000 := by decide
    rw [hval] at hms
    simp [enrichedOf, hp, Except.toOption, jsonGetPath, hg, htg, hms]

theorem claim_C9_witness :
    (enrichedOf (Json.obj []) ctxEmpty).bind
        (fun e => jsonGetPath e ["enrichment", "processing_metadata"]) =
      some (Json.obj [
        ("function_name", Json.str "cdc-enrichment"),
        ("function_version", Json.str "1.0"),
        ("message_id", Json.null),
        ("topic", Json.null),
        ("partition_id", Json.null)]) := by
  cases hp : processMessage (Json.obj []) ctxEmpty with
  | error e =>
    have hok : (processMessage (Json.obj []) ctxEmpty).toOption.isSome = true := by decide
    rw [hp] at hok
    exact absurd hok (by simp [Except.toOption])
  | ok p =>
    obtain ⟨enr, il⟩ := p
    obtain ⟨g, hg, hpm⟩ := claim_C9_processing_metadata _ ctxEmpty enr il hp
    have hpm2 : jsonGet g "processing_metadata" = some (Json.obj [
        ("function_name", Json.str "cdc-enrichment"),
        ("function_version", Json.str "1.0"),
        ("message_id", Json.null),
        ("topic", Json.null),
        ("partition_id", Json.null)]) := hpm
    simp [enrichedOf, hp, Except.toOption, jsonGetPath, hg, hpm2]

/-- The C10 witness input: `after.email` is JSON null. -/
def inputNullEmail : PyData :=
  PyData.str "\x7b\"after\": \x7b\"email\": null\x7d\x7d"

theorem claim_C10_amended_witness :
    (process inputNullEmail ctxEmpty).1 = inputNullEmail := by
  obtain ⟨e, -, hp⟩ := claim_C10_amended inputNullEmail ctxEmpty
    [("after", Json.obj [("email", Json.null)])] [("email", Json.null)] Json.null
    (by decide) (by decide) (by decide) (Or.inl rfl)
  rw [hp]
